import Mathlib

/-!
Shallow embedding of the coastwatch-scraper worker (src/index.ts), covering the
`scheduled` pipeline: table-row parsing, detail-page enrichment, feature
assembly, the data-quality gates, and the single KV `put`.  External
collaborators (fetch, cheerio, the KV store, the slugify library) are modelled
at their interfaces: the table fetch delivers a list of rows (the texts of the
`td` cells cheerio would return), a detail fetch delivers the queried fragments
of a detail page, and `put` is recorded as an event.  JavaScript numbers are
modelled as rationals, with `none` standing for `NaN` / an absent value.
-/

namespace CoastWatch

/-! ### Character classes (models of the JS lexical classes used by the code) -/

/-- ASCII digit, as used by the JS `parseInt` / `parseFloat` grammar and the
regex class `\d`. -/
def isDigitCh (c : Char) : Bool := 48 ≤ c.toNat && c.toNat ≤ 57

/-- Whitespace stripped by JS `parseInt` / `parseFloat` (space, tab, LF, VT,
FF, CR). -/
def isWsCh (c : Char) : Bool :=
  c.toNat = 32 || c.toNat = 9 || c.toNat = 10 || c.toNat = 11 ||
  c.toNat = 12 || c.toNat = 13

/-- Hexadecimal digit, for the `0x` branch of JS `parseInt`. -/
def isHexCh (c : Char) : Bool :=
  (48 ≤ c.toNat && c.toNat ≤ 57) || (97 ≤ c.toNat && c.toNat ≤ 102) ||
  (65 ≤ c.toNat && c.toNat ≤ 70)

/-- Numeric value of a decimal digit string (most significant first). -/
def digitsVal (ds : List Char) : Nat :=
  ds.foldl (fun a c => a * 10 + (c.toNat - 48)) 0

/-- Numeric value of one hex digit. -/
def hexDigitVal (c : Char) : Nat :=
  if 97 ≤ c.toNat then c.toNat - 87
  else if 65 ≤ c.toNat then c.toNat - 55
  else c.toNat - 48

/-- Numeric value of a hex digit string. -/
def hexVal (ds : List Char) : Nat :=
  ds.foldl (fun a c => a * 16 + hexDigitVal c) 0

/-- Split an optional leading sign; returns (isNegative, rest). -/
def signSplit : List Char → Bool × List Char
  | [] => (false, [])
  | c :: cs =>
    if c = '-' then (true, cs)
    else if c = '+' then (false, cs)
    else (false, c :: cs)

/-- Recognise the `0x` / `0X` marker of JS `parseInt` with no explicit radix. -/
def stripHexMark : List Char → Option (List Char)
  | a :: b :: rest =>
    if a = '0' && (b = 'x' || b = 'X') then some rest else none
  | _ => none

/-- Longest digit prefix and the remainder. -/
def takeDigitsSplit (cs : List Char) : List Char × List Char :=
  (cs.takeWhile isDigitCh, cs.dropWhile isDigitCh)

/-! ### JS number parsing (models of the `parseInt` / `parseFloat` builtins) -/

/-- Model of JS `parseInt(s)` (radix unspecified): strip leading whitespace,
optional sign, optional `0x` marker selecting hex, then the longest digit
prefix; `none` models `NaN` (no digits).  Values are exact integers; the
float rounding of very long digit strings is outside the model. -/
def jsParseInt (s : String) : Option Int :=
  let cs := s.toList.dropWhile isWsCh
  let sg := signSplit cs
  match stripHexMark sg.2 with
  | some rest =>
    let ds := rest.takeWhile isHexCh
    if ds.isEmpty then none
    else if sg.1 then some (-(hexVal ds : Int)) else some ((hexVal ds : Int))
  | none =>
    let ds := sg.2.takeWhile isDigitCh
    if ds.isEmpty then none
    else if sg.1 then some (-(digitsVal ds : Int)) else some ((digitsVal ds : Int))

/-- Exponent part of the JS float grammar (`e` / `E`, optional sign, digits);
yields 0 when absent or incomplete (`parseFloat` then stops before it). -/
def expPart (cs : List Char) : Int :=
  match cs with
  | c :: rest =>
    if c = 'e' || c = 'E' then
      let sg := signSplit rest
      let ds := sg.2.takeWhile isDigitCh
      if ds.isEmpty then 0
      else if sg.1 then -(digitsVal ds : Int) else (digitsVal ds : Int)
    else 0
  | [] => 0

/-- Model of JS `parseFloat` on a character list: leading whitespace, optional
sign, decimal significand (digits, optional point, digits), optional exponent;
`none` models `NaN` (no leading numeric prefix).  Values are exact rationals
(binary rounding is outside the model) and the `Infinity` literal is not
modelled: the pipeline only feeds it spreadsheet coordinate text. -/
def jsParseFloatL (cs0 : List Char) : Option ℚ :=
  let cs := cs0.dropWhile isWsCh
  let sg := signSplit cs
  let ip := takeDigitsSplit sg.2
  let fr :=
    match ip.2 with
    | '.' :: rest => takeDigitsSplit rest
    | _ => ([], ip.2)
  if ip.1.isEmpty && fr.1.isEmpty then none
  else
    let e := expPart fr.2 - (fr.1.length : Int)
    let n := digitsVal (ip.1 ++ fr.1)
    let mag : ℚ :=
      if 0 ≤ e then mkRat (Int.ofNat (n * Nat.pow 10 e.toNat)) 1
      else mkRat (Int.ofNat n) (Nat.pow 10 (-e).toNat)
    some (if sg.1 then -mag else mag)

/-- Model of JS `parseFloat` on a string. -/
def jsParseFloat (s : String) : Option ℚ := jsParseFloatL s.toList

/-! ### JS string helpers -/

/-- Does `hay` start with `needle`? -/
def startsWithCs : List Char → List Char → Bool
  | [], _ => true
  | _ :: _, [] => false
  | p :: ps, c :: cs => p = c && startsWithCs ps cs

/-- Substring containment, the semantics of JS `/literal/.test(s)` and of the
CSS attribute selector `[attr*=literal]`. -/
def containsSub (needle : List Char) : List Char → Bool
  | [] => startsWithCs needle []
  | c :: t => startsWithCs needle (c :: t) || containsSub needle t

/-- Substring containment on strings. -/
def strContains (needle s : String) : Bool := containsSub needle.toList s.toList

/-- JS truthiness of a string: only the empty string is falsy. -/
def jsStrTruthy (s : String) : Bool := !(s.toList.isEmpty)

/-- JS truthiness of `string | undefined` (e.g. cheerio `attr` results). -/
def truthy : Option String → Bool
  | none => false
  | some s => jsStrTruthy s

/-- JS truthiness of `number | undefined`: `undefined` and `0` are falsy
(`NaN` is already excluded before the value is stored). -/
def truthyNum : Option Int → Bool
  | none => false
  | some n => n != 0

/-- Model of JS `String.prototype.split(",")`: split at every comma, keeping
empty pieces; the empty string yields one empty piece. -/
def splitComma : List Char → List (List Char)
  | [] => [[]]
  | c :: rest =>
    if c = ',' then [] :: splitComma rest
    else
      match splitComma rest with
      | [] => [[c]]
      | g :: gs => (c :: g) :: gs

/-- ASCII lower-casing of one character (model of JS `toLowerCase` on the
ASCII names in the table). -/
def lowerCh (c : Char) : Char :=
  if 65 ≤ c.toNat && c.toNat ≤ 90 then Char.ofNat (c.toNat + 32) else c

/-- Model of JS `toLowerCase`. -/
def jsToLower (s : String) : String := String.mk (s.toList.map lowerCh)

/-- Model of the external `slugify` library used for URL construction:
whitespace becomes a hyphen, characters outside ASCII letters, digits, hyphen
and underscore are dropped.  No claim depends on the exact slug text. -/
def slugifyModel (s : String) : String :=
  String.mk (s.toList.filterMap (fun c =>
    if c = ' ' then some '-'
    else if c.isAlphanum || c = '-' || c = '_' then some c
    else none))

/-! ### Data model -/

/-- One table row of the published spreadsheet, as cheerio exposes it: the
text of each `td` cell in order.  `td:nth-child(n)` is the n-th entry; a
missing cell reads as the empty string, as cheerio `.text()` does. -/
structure Row where
  cells : List String
deriving DecidableEq, Repr

/-- Text of `td:nth-child(n)` of a row. -/
def tdText (r : Row) (n : Nat) : String := ((r.cells.get? (n - 1)).getD "")

/-- One `img.mile-report-result-image` element of a detail page: its `src`
and `alt` attributes (`none` = attribute absent). -/
structure ReportImage where
  src : Option String
  alt : Option String
deriving DecidableEq, Repr

/-- A mile detail page, at the interface the code queries through cheerio:
the `src` of the first `img.mile-image` (`none` when the element or the
attribute is missing), the `img.mile-report-result-image` elements in document
order, and the text of `.results-meta .num-results p`. -/
structure DetailPage where
  mileImageSrc : Option String
  reportImages : List ReportImage
  resultsMetaText : String
deriving DecidableEq, Repr

/-- A GeoJSON mile feature as the code assembles it: `id`, `properties`
(name, url, mileNumber, optional imageUrl, optional numReports) and the point
geometry coordinates (south boundary text split on commas, reversed, each
piece through `parseFloat`; `none` models `NaN`). -/
structure Feature where
  id : Int
  name : String
  url : String
  mileNumber : Int
  imageUrl : Option String
  numReports : Option Int
  coordinates : List (Option ℚ)
deriving DecidableEq, Repr

/-- The persisted artifact: generation timestamp plus the ordered features
(the constant `type` tags are not modelled). -/
structure FeatureCollection where
  updatedAt : String
  features : List Feature
deriving DecidableEq, Repr

/-! ### TableRowParser -/

/-- The sentinel phrase tested by `/never captured on OSCC website/`. -/
def skipSentinel : String := "never captured on OSCC website"

/-- Detail-page URL built from the identifier and the slugified
lower-cased name. -/
def mileUrl (id : Int) (name : String) : String :=
  "https://oregonshores.org/mile/mile-" ++ toString id ++ "-" ++
    slugifyModel (jsToLower name) ++ "/"

/-- South-boundary cell text to point coordinates: split on commas, reverse
to (lon, lat), parse each piece as a float with no success check. -/
def parseBoundary (s : String) : List (Option ℚ) :=
  ((splitComma s.toList).reverse).map jsParseFloatL

/-- The base feature built from one data row, before enrichment. -/
def mkFeature (id : Int) (name : String) (south : String) : Feature :=
  { id := id
    name := name
    url := mileUrl id name
    mileNumber := id
    imageUrl := none
    numReports := none
    coordinates := parseBoundary south }

/-- One loop iteration's row handling: `parseInt` of `td:nth-child(2)`
(`continue` when `NaN`), the sentinel test on `td:nth-child(3)` (`continue`
on match), otherwise the base feature from the name and `td:nth-child(5)`. -/
def parseRow (r : Row) : Option Feature :=
  match jsParseInt (tdText r 2) with
  | none => none
  | some id =>
    if strContains skipSentinel (tdText r 3) then none
    else some (mkFeature id (tdText r 3) (tdText r 5))

/-! ### DetailEnricher -/

/-- Does the `alt` attribute match the selector `[alt*=decorative]`?
An absent attribute never matches. -/
def altDecorative (i : ReportImage) : Bool :=
  match i.alt with
  | none => false
  | some a => strContains "decorative" a

/-- The fallback selector
`img.mile-report-result-image:not([alt*=decorative])` followed by
`.first().attr("src")`. -/
def fallbackImageSrc (p : DetailPage) : Option String :=
  ((p.reportImages.filter (fun i => !altDecorative i)).head?).bind ReportImage.src

/-- The image value the enrichment assigns: the primary `img.mile-image`
`src` when truthy, else the fallback report-image `src` when truthy, else
nothing. -/
def enrichImage (p : DetailPage) : Option String :=
  if truthy p.mileImageSrc then p.mileImageSrc
  else if truthy (fallbackImageSrc p) then fallbackImageSrc p
  else none

/-- Strip an expected literal from the front of a character list; `none` when
the literal is not there. -/
def dropLit : List Char → List Char → Option (List Char)
  | [], cs => some cs
  | _ :: _, [] => none
  | l :: ls, c :: cs => if c = l then dropLit ls cs else none

/-- Match `/Showing \d+ of (\d+) reports/` at one position; returns the
second capture group. -/
def matchShowingHere (cs : List Char) : Option (List Char) :=
  match dropLit "Showing ".toList cs with
  | none => none
  | some cs1 =>
    let d1 := cs1.takeWhile isDigitCh
    if d1.isEmpty then none
    else
      match dropLit " of ".toList (cs1.dropWhile isDigitCh) with
      | none => none
      | some cs2 =>
        let d2 := cs2.takeWhile isDigitCh
        if d2.isEmpty then none
        else
          match dropLit " reports".toList (cs2.dropWhile isDigitCh) with
          | none => none
          | some _ => some d2

/-- Leftmost match of the report-count regex. -/
def execShowingAux : List Char → Option (List Char)
  | [] => none
  | c :: cs =>
    match matchShowingHere (c :: cs) with
    | some d => some d
    | none => execShowingAux cs

/-- Model of `/Showing \d+ of (\d+) reports/.exec(s)` restricted to the used
capture group `data[1]`. -/
def execShowing (s : String) : Option String :=
  (execShowingAux s.toList).map String.mk

/-- The report count the enrichment assigns: regex capture must exist and be
truthy (`data && data[1]`), then `parseInt` with an `isNaN` guard. -/
def reportCount (s : String) : Option Int :=
  match execShowing s with
  | none => none
  | some cap =>
    if jsStrTruthy cap then
      match jsParseInt cap with
      | none => none
      | some n => some n
    else none

/-- Apply one detail page to a feature: each field is assigned only when its
extraction produced a (truthy) value, otherwise it is left as it was. -/
def enrich (f : Feature) (p : DetailPage) : Feature :=
  let f1 :=
    match enrichImage p with
    | some s => { f with imageUrl := some s }
    | none => f
  match reportCount p.resultsMetaText with
  | some n => { f1 with numReports := some n }
  | none => f1

/-- Outcome of fetching one detail page: the page, or a transport failure
(the code awaits `fetch` without a catch, so a failure aborts the run). -/
def DetailFetch := String → Except Unit DetailPage

/-- The row loop of `scheduled`: for each row, parse-or-skip; for kept rows,
`imagesFetched++ < 500` decides whether the detail page is fetched (the
counter increments for every kept row); every kept feature is pushed.
Returns the detail URLs fetched in order, and either the failing URL or the
final feature list. -/
def runRows (fd : DetailFetch) : List Row → Nat → List String × Except String (List Feature)
  | [], _ => ([], Except.ok [])
  | r :: rest, count =>
    match parseRow r with
    | none => runRows fd rest count
    | some f =>
      if count < 500 then
        match fd f.url with
        | Except.error _ => ([f.url], Except.error f.url)
        | Except.ok page =>
          let t := runRows fd rest (count + 1)
          (f.url :: t.1, t.2.map (fun fs => enrich f page :: fs))
      else
        let t := runRows fd rest (count + 1)
        (t.1, t.2.map (fun fs => f :: fs))

/-! ### DataQualityValidator -/

/-- The three descriptive failures thrown by the sanity checks. -/
inductive GateError
  | noImages
  | noReports
  | tooFewMiles (n : Nat)
deriving DecidableEq, Repr

/-- The gate block exactly as written in the code:
`if (!miles.features.find((mile) => !mile.properties.imageUrl)) throw ...`,
then the analogous `numReports` check, then `features.length < 10`. -/
def validate (features : List Feature) : Option GateError :=
  if (features.find? (fun m => !truthy m.imageUrl)).isNone then
    some GateError.noImages
  else if (features.find? (fun m => !truthyNum m.numReports)).isNone then
    some GateError.noReports
  else if features.length < 10 then
    some (GateError.tooFewMiles features.length)
  else
    none

/-! ### The scheduled run -/

/-- Why a run aborted. -/
inductive RunError
  | tableFetchFailed
  | detailFetchFailed (url : String)
  | gateFailed (g : GateError)
deriving DecidableEq, Repr

/-- The environment a run reads: the spreadsheet fetch (delivering the table
rows cheerio extracts, or a transport failure) and the detail-page fetches. -/
structure ScrapeEnv where
  tablePage : Except Unit (List Row)
  detailPage : DetailFetch

/-- Observable outcome of one `scheduled` run: the detail fetches issued, the
completion or abort, and the `env.miles.put` events (serialisation to JSON is
not modelled; the stored collection value is recorded). -/
structure RunResult where
  detailFetches : List String
  outcome : Except RunError Unit
  puts : List FeatureCollection

/-- The whole `scheduled` handler: fetch the table, run the row loop, run the
gates, and only then `put` the collection (stamped `updatedAt := now`). -/
def scheduled (env : ScrapeEnv) (now : String) : RunResult :=
  match env.tablePage with
  | Except.error _ => ⟨[], Except.error RunError.tableFetchFailed, []⟩
  | Except.ok rows =>
    let t := runRows env.detailPage rows 0
    match t.2 with
    | Except.error u => ⟨t.1, Except.error (RunError.detailFetchFailed u), []⟩
    | Except.ok features =>
      match validate features with
      | some g => ⟨t.1, Except.error (RunError.gateFailed g), []⟩
      | none => ⟨t.1, Except.ok (), [⟨now, features⟩]⟩

/-- The KV store value after a run, given the previously persisted value. -/
def finalStore (prior : Option FeatureCollection) (r : RunResult) :
    Option FeatureCollection :=
  r.puts.foldl (fun _ c => some c) prior

/-- A feature with its enrichment fields removed, for relating output
features to their source rows. -/
def stripEnrichment (f : Feature) : Feature :=
  { f with imageUrl := none, numReports := none }

/-! ### Example fixtures -/

/-- A bare feature with neither enrichment field. -/
def baseFeat (i : Int) : Feature :=
  { id := i
    name := "Mile"
    url := "https://example.org/mile"
    mileNumber := i
    imageUrl := none
    numReports := none
    coordinates := [] }

/-- Attach an image URL. -/
def withImg (f : Feature) : Feature := { f with imageUrl := some "https://img" }

/-- Attach a report count. -/
def withRep (f : Feature) : Feature := { f with numReports := some 5 }

/-- Ten features all carrying an image URL, none carrying a report count. -/
def exAllImg : List Feature := (List.range 10).map (fun i => withImg (baseFeat i))

/-- Ten features with no image URL at all; the first also lacks a report
count, the other nine carry one. -/
def exNoImg : List Feature :=
  (List.range 10).map (fun i => if i = 0 then baseFeat i else withRep (baseFeat i))

/-- Ten features all carrying a report count; only the first lacks an image
URL. -/
def exAllRep : List Feature :=
  (List.range 10).map (fun i =>
    if i = 0 then withRep (baseFeat i) else withImg (withRep (baseFeat i)))

/-- Ten features with no report count at all; only the first lacks an image
URL. -/
def exNoRep : List Feature :=
  (List.range 10).map (fun i => if i = 0 then baseFeat i else withImg (baseFeat i))

/-- Ten features all carrying both an image URL and a report count — a
collection meeting all three spec thresholds. -/
def exMeets : List Feature :=
  (List.range 10).map (fun i => withImg (withRep (baseFeat i)))

/-- A header-like row: the identifier cell holds the column caption, not an
integer. -/
def hdrRow : Row := ⟨["", "Mile", "Name", "45.0,-124.0", "44.9,-124.0"]⟩

/-- A data row carrying mile 12, named North, with boundary text in
(lat, lon) order. -/
def exRow7 : Row := ⟨["", "12", "North", "45.0,-124.0", "44.1,-124.0"]⟩

/-- A detail fetch whose pages are all empty. -/
def emptyFd : DetailFetch := fun _ => Except.ok ⟨none, [], ""⟩

/-- A detail page with no primary image, a decorative report image first and
a usable report image second. -/
def exPage8 : DetailPage :=
  ⟨none,
    [⟨some "https://s1", some "decorative banner"⟩, ⟨some "https://s2", some "surf"⟩],
    ""⟩

/-- An environment whose table fetch succeeds with no rows; every detail
fetch fails. -/
def exEnvFail : ScrapeEnv := ⟨Except.ok [], fun _ => Except.error ()⟩

/-! ### Helper lemmas -/

/-- A parsed row's feature carries no enrichment fields yet. -/
theorem parseRow_base {r : Row} {f : Feature} (h : parseRow r = some f) :
    f.imageUrl = none ∧ f.numReports = none := by
  unfold parseRow at h
  cases hj : jsParseInt (tdText r 2) with
  | none => rw [hj] at h; simp at h
  | some id =>
    rw [hj] at h
    by_cases hs : strContains skipSentinel (tdText r 3) = true
    · simp [hs] at h
    · simp [hs] at h
      subst h
      exact ⟨rfl, rfl⟩

/-- Stripping the enrichment fields of an unenriched feature is the
identity. -/
theorem stripEnrichment_id {f : Feature} (h1 : f.imageUrl = none)
    (h2 : f.numReports = none) : stripEnrichment f = f := by
  cases f
  unfold stripEnrichment
  simp only at h1 h2
  subst h1
  subst h2
  rfl

/-- Enrichment only touches the two optional fields. -/
theorem stripEnrichment_enrich (f : Feature) (p : DetailPage) :
    stripEnrichment (enrich f p) = stripEnrichment f := by
  unfold enrich stripEnrichment
  cases enrichImage p <;> cases reportCount p.resultsMetaText <;> rfl

/-- On a feature without an image, enrichment installs exactly the extracted
image value. -/
theorem enrich_imageUrl {f : Feature} (p : DetailPage) (h : f.imageUrl = none) :
    (enrich f p).imageUrl = enrichImage p := by
  unfold enrich
  cases hi : enrichImage p <;> cases hr : reportCount p.resultsMetaText <;> simp [h]

/-- The assigned image value is never the empty string: both assignment sites
are guarded by JS truthiness. -/
theorem enrichImage_ne_empty {p : DetailPage} {s : String}
    (hp : enrichImage p = some s) : s ≠ "" := by
  intro he
  subst he
  unfold enrichImage at hp
  by_cases h1 : truthy p.mileImageSrc = true
  · rw [if_pos h1] at hp
    rw [hp] at h1
    simp [truthy, jsStrTruthy] at h1
  · rw [if_neg h1] at hp
    by_cases h2 : truthy (fallbackImageSrc p) = true
    · rw [if_pos h2] at hp
      rw [hp] at h2
      simp [truthy, jsStrTruthy] at h2
    · rw [if_neg h2] at hp
      exact absurd hp (by simp)

/-- Unfolding equation of the row loop on an empty row list. -/
theorem runRows_nil (fd : DetailFetch) (count : Nat) :
    runRows fd [] count = ([], Except.ok []) := rfl

/-- Unfolding equation of the row loop on a cons. -/
theorem runRows_cons (fd : DetailFetch) (r : Row) (rest : List Row) (count : Nat) :
    runRows fd (r :: rest) count =
      match parseRow r with
      | none => runRows fd rest count
      | some f =>
        if count < 500 then
          match fd f.url with
          | Except.error _ => ([f.url], Except.error f.url)
          | Except.ok page =>
            let t := runRows fd rest (count + 1)
            (f.url :: t.1, t.2.map (fun fs => enrich f page :: fs))
        else
          let t := runRows fd rest (count + 1)
          (t.1, t.2.map (fun fs => f :: fs)) := rfl

/-- Master invariant of the row loop, by induction over the rows with the
counter generalised: the fetch log is bounded by the remaining budget and
(on success) consists of the URLs of the first kept records; every kept
record reaches the output in order; records beyond the budget stay
unenriched; and any assigned image URL comes from `enrichImage` of some
page. -/
theorem runRowsSpec (fd : DetailFetch) :
    ∀ (rows : List Row) (count : Nat),
      (runRows fd rows count).1.length ≤ 500 - count ∧
      (∀ (log : List String) (fs : List Feature),
        runRows fd rows count = (log, Except.ok fs) →
        log = ((rows.filterMap parseRow).map Feature.url).take (500 - count) ∧
        fs.map stripEnrichment = rows.filterMap parseRow ∧
        (∀ f ∈ fs.drop (500 - count), f.imageUrl = none ∧ f.numReports = none) ∧
        (∀ f ∈ fs, f.imageUrl = none ∨ ∃ p : DetailPage, f.imageUrl = enrichImage p)) := by
  intro rows
  induction rows with
  | nil =>
    intro count
    refine ⟨by simp [runRows_nil], ?_⟩
    intro log fs h
    rw [runRows_nil] at h
    obtain ⟨h1, h2⟩ := Prod.mk.injEq .. ▸ h
    injection h2 with h2
    subst h1
    subst h2
    simp
  | cons r rest ih =>
    intro count
    cases hp : parseRow r with
    | none =>
      have hstep : runRows fd (r :: rest) count = runRows fd rest count := by
        rw [runRows_cons, hp]
      have hkept : (r :: rest).filterMap parseRow = rest.filterMap parseRow := by
        simp [List.filterMap_cons, hp]
      rw [hstep, hkept]
      exact ih count
    | some f =>
      have hbase := parseRow_base hp
      have hkept : (r :: rest).filterMap parseRow = f :: rest.filterMap parseRow := by
        simp [List.filterMap_cons, hp]
      by_cases hc : count < 500
      · cases hfd : fd f.url with
        | error e =>
          have hstep : runRows fd (r :: rest) count = ([f.url], Except.error f.url) := by
            rw [runRows_cons, hp]
            dsimp only
            rw [if_pos hc, hfd]
          constructor
          · rw [hstep]
            simp
            omega
          · intro log fs h
            rw [hstep] at h
            obtain ⟨h1, h2⟩ := Prod.mk.injEq .. ▸ h
            exact absurd h2 (by simp)
        | ok page =>
          have hstep : runRows fd (r :: rest) count =
              (f.url :: (runRows fd rest (count + 1)).1,
                (runRows fd rest (count + 1)).2.map (fun fs => enrich f page :: fs)) := by
            rw [runRows_cons, hp]
            dsimp only
            rw [if_pos hc, hfd]
          obtain ⟨ih1, ih2⟩ := ih (count + 1)
          constructor
          · rw [hstep]
            simp only [List.length_cons]
            omega
          · intro log fs h
            rw [hstep] at h
            obtain ⟨h1, h2⟩ := Prod.mk.injEq .. ▸ h
            cases ht : (runRows fd rest (count + 1)).2 with
            | error u => rw [ht] at h2; exact absurd h2 (by simp [Except.map])
            | ok fs1 =>
              rw [ht] at h2
              simp only [Except.map] at h2
              injection h2 with h2
              have hpair : runRows fd rest (count + 1) =
                  ((runRows fd rest (count + 1)).1, Except.ok fs1) := by
                rw [← ht]
              obtain ⟨jl, jm, jd, jp⟩ := ih2 (runRows fd rest (count + 1)).1 fs1 hpair
              have hcount : 500 - count = (500 - (count + 1)) + 1 := by omega
              refine ⟨?_, ?_, ?_, ?_⟩
              · rw [← h1, hkept, hcount]
                simp only [List.map_cons, List.take_succ_cons]
                rw [jl]
              · rw [← h2, hkept]
                simp only [List.map_cons]
                rw [jm, stripEnrichment_enrich,
                  stripEnrichment_id hbase.1 hbase.2]
              · rw [← h2, hcount]
                simp only [List.drop_succ_cons]
                exact jd
              · rw [← h2]
                intro g hg
                rcases List.mem_cons.mp hg with hg | hg
                · subst hg
                  exact Or.inr ⟨page, enrich_imageUrl page hbase.1⟩
                · exact jp g hg
      · have hstep : runRows fd (r :: rest) count =
            ((runRows fd rest (count + 1)).1,
              (runRows fd rest (count + 1)).2.map (fun fs => f :: fs)) := by
          rw [runRows_cons, hp]
          dsimp only
          rw [if_neg hc]
        obtain ⟨ih1, ih2⟩ := ih (count + 1)
        have hz : 500 - count = 0 := by omega
        have hz1 : 500 - (count + 1) = 0 := by omega
        constructor
        · rw [hstep]
          simp only
          omega
        · intro log fs h
          rw [hstep] at h
          obtain ⟨h1, h2⟩ := Prod.mk.injEq .. ▸ h
          cases ht : (runRows fd rest (count + 1)).2 with
          | error u => rw [ht] at h2; exact absurd h2 (by simp [Except.map])
          | ok fs1 =>
            rw [ht] at h2
            simp only [Except.map] at h2
            injection h2 with h2
            have hpair : runRows fd rest (count + 1) =
                ((runRows fd rest (count + 1)).1, Except.ok fs1) := by
              rw [← ht]
            obtain ⟨jl, jm, jd, jp⟩ := ih2 (runRows fd rest (count + 1)).1 fs1 hpair
            refine ⟨?_, ?_, ?_, ?_⟩
            · rw [← h1, hz, jl, hz1]
              simp
            · rw [← h2, hkept]
              simp only [List.map_cons]
              rw [jm, stripEnrichment_id hbase.1 hbase.2]
            · rw [← h2, hz]
              rw [hz1] at jd
              intro g hg
              rcases List.mem_cons.mp (by simpa using hg) with hg1 | hg1
              · subst hg1
                exact hbase
              · exact jd g (by simpa using hg1)
            · rw [← h2]
              intro g hg
              rcases List.mem_cons.mp hg with hg1 | hg1
              · subst hg1
                exact Or.inl hbase.1
              · exact jp g hg1

/-! ### Helper lemmas for the report-count regex -/

/-- Numeric bounds of a digit character. -/
theorem digit_bounds {c : Char} (h : isDigitCh c = true) :
    48 ≤ c.toNat ∧ c.toNat ≤ 57 := by
  unfold isDigitCh at h
  simp only [Bool.and_eq_true, decide_eq_true_eq] at h
  exact h

/-- A digit character differs from any character outside the digit range. -/
theorem digit_ne_of_out {c x : Char} (h : isDigitCh c = true)
    (hx : ¬(48 ≤ x.toNat ∧ x.toNat ≤ 57)) : c ≠ x := by
  intro he
  subst he
  exact hx (digit_bounds h)

/-- A digit character is not parse-time whitespace. -/
theorem digit_not_ws {c : Char} (h : isDigitCh c = true) : isWsCh c = false := by
  obtain ⟨h1, h2⟩ := digit_bounds h
  unfold isWsCh
  simp only [Bool.or_eq_false_iff, decide_eq_false_iff_not]
  omega

/-- Stripping a literal from itself followed by anything succeeds. -/
theorem dropLit_eq (lit rest : List Char) : dropLit lit (lit ++ rest) = some rest := by
  induction lit with
  | nil => rfl
  | cons c cs ih => simp [dropLit, ih]

/-- Stripping a literal from exactly itself succeeds with an empty rest. -/
theorem dropLit_self (lit : List Char) : dropLit lit lit = some [] := by
  simpa using dropLit_eq lit []

/-- `takeWhile` / `dropWhile` over an all-digit prefix followed by a
non-digit. -/
theorem takeDropDigits :
    ∀ (ds : List Char) (c : Char) (rest : List Char),
      (∀ x ∈ ds, isDigitCh x = true) → isDigitCh c = false →
      ((ds ++ c :: rest).takeWhile isDigitCh = ds ∧
        (ds ++ c :: rest).dropWhile isDigitCh = c :: rest) := by
  intro ds
  induction ds with
  | nil =>
    intro c rest _ hc
    simp [List.takeWhile_cons, List.dropWhile_cons, hc]
  | cons d dtl ih =>
    intro c rest hall hc
    have hd : isDigitCh d = true := hall d (by simp)
    have hih := ih c rest (fun x hx => hall x (by simp [hx])) hc
    simp [List.takeWhile_cons, List.dropWhile_cons, hd, hih.1, hih.2]

/-- `takeWhile` keeps an all-digit list whole. -/
theorem takeWhile_digits_all {l : List Char} (h : ∀ c ∈ l, isDigitCh c = true) :
    l.takeWhile isDigitCh = l := by
  induction l with
  | nil => rfl
  | cons a tl ih =>
    simp [List.takeWhile_cons, h a (by simp), ih (fun c hc => h c (by simp [hc]))]

/-- JS `parseInt` on a non-empty all-digit string yields its decimal value. -/
theorem jsParseInt_digits (ds : List Char) (hne : ds ≠ [])
    (hall : ∀ c ∈ ds, isDigitCh c = true) :
    jsParseInt (String.mk ds) = some ((digitsVal ds : Nat) : Int) := by
  obtain ⟨d, tl, rfl⟩ : ∃ d tl, ds = d :: tl := by
    cases ds with
    | nil => exact absurd rfl hne
    | cons d tl => exact ⟨d, tl, rfl⟩
  have hd : isDigitCh d = true := hall d (by simp)
  have hdw : (d :: tl).dropWhile isWsCh = d :: tl := by
    rw [List.dropWhile_cons, digit_not_ws hd]
    rfl
  have hsg : signSplit (d :: tl) = (false, d :: tl) := by
    unfold signSplit
    dsimp only
    rw [if_neg (digit_ne_of_out hd (by decide)),
      if_neg (digit_ne_of_out hd (by decide))]
  have hhex : stripHexMark (d :: tl) = none := by
    cases tl with
    | nil => rfl
    | cons b btl =>
      have hb : isDigitCh b = true := hall b (by simp)
      unfold stripHexMark
      dsimp only
      rw [if_neg]
      simp only [Bool.and_eq_true, Bool.or_eq_true, decide_eq_true_eq, not_and, not_or]
      intro _
      exact ⟨digit_ne_of_out hb (by decide), digit_ne_of_out hb (by decide)⟩
  have htk : (d :: tl).takeWhile isDigitCh = d :: tl := takeWhile_digits_all hall
  unfold jsParseInt
  dsimp only
  rw [show (String.mk (d :: tl)).toList = d :: tl from rfl, hdw, hsg]
  dsimp only
  rw [hhex]
  dsimp only
  rw [htk]
  rfl

/-- One step of the regex scan succeeds as soon as the pattern matches at the
current position. -/
theorem execShowingAux_head (c : Char) (cs : List Char) (d : List Char)
    (h : matchShowingHere (c :: cs) = some d) :
    execShowingAux (c :: cs) = some d := by
  unfold execShowingAux
  rw [h]

/-- The matcher on a well-formed `Showing X of N reports` text captures the
digit run `N`. -/
theorem matchShowingHere_eq (d1 d2 : List Char)
    (h1 : d1 ≠ []) (h2 : d2 ≠ [])
    (hd1 : ∀ c ∈ d1, isDigitCh c = true)
    (hd2 : ∀ c ∈ d2, isDigitCh c = true) :
    matchShowingHere
      ("Showing ".toList ++ (d1 ++ (" of ".toList ++ (d2 ++ " reports".toList))))
      = some d2 := by
  have he1 : d1.isEmpty = false := by
    cases d1 with
    | nil => exact absurd rfl h1
    | cons a l => rfl
  have he2 : d2.isEmpty = false := by
    cases d2 with
    | nil => exact absurd rfl h2
    | cons a l => rfl
  have hsp1 : isDigitCh ' ' = false := by decide
  have htd1 := takeDropDigits d1 ' ' ("of ".toList ++ (d2 ++ " reports".toList)) hd1 hsp1
  have htd2 := takeDropDigits d2 ' ' ("reports".toList) hd2 hsp1
  unfold matchShowingHere
  rw [dropLit_eq]
  dsimp only
  rw [show (d1 ++ (" of ".toList ++ (d2 ++ " reports".toList)))
      = d1 ++ ' ' :: ("of ".toList ++ (d2 ++ " reports".toList)) from rfl]
  rw [htd1.1, htd1.2, he1]
  simp only [Bool.false_eq_true, if_false]
  rw [show (' ' :: ("of ".toList ++ (d2 ++ " reports".toList)))
      = " of ".toList ++ (d2 ++ " reports".toList) from rfl]
  rw [dropLit_eq]
  dsimp only
  rw [show (d2 ++ " reports".toList) = d2 ++ ' ' :: "reports".toList from rfl]
  rw [htd2.1, htd2.2, he2]
  simp only [Bool.false_eq_true, if_false]
  rw [show (' ' :: "reports".toList) = " reports".toList from rfl]
  rw [dropLit_self]

/-- The full regex model on a text that is exactly one well-formed match. -/
theorem execShowing_eq (d1 d2 : List Char)
    (h1 : d1 ≠ []) (h2 : d2 ≠ [])
    (hd1 : ∀ c ∈ d1, isDigitCh c = true)
    (hd2 : ∀ c ∈ d2, isDigitCh c = true) :
    execShowing (String.mk
      ("Showing ".toList ++ (d1 ++ (" of ".toList ++ (d2 ++ " reports".toList)))))
      = some (String.mk d2) := by
  have hm := matchShowingHere_eq d1 d2 h1 h2 hd1 hd2
  unfold execShowing
  rw [show (String.mk ("Showing ".toList ++ (d1 ++ (" of ".toList ++ (d2 ++ " reports".toList))))).toList
      = 'S' :: ("howing ".toList ++ (d1 ++ (" of ".toList ++ (d2 ++ " reports".toList)))) from rfl]
  rw [execShowingAux_head 'S'
    ("howing ".toList ++ (d1 ++ (" of ".toList ++ (d2 ++ " reports".toList)))) d2 hm]
  rfl

/-! ### Claim theorems -/

/-- C1 (code bug): the spec's image-coverage gate must raise exactly when no
feature carries an image URL, but the code's predicate is inverted
(`!find(m => !m.imageUrl)`): a ten-feature collection with no image URLs at
all passes the whole validator, while a collection in which every feature
carries an image URL is rejected with the "No images found" failure. -/
theorem validatorImageGateInverted :
    ((∀ f ∈ exNoImg, truthy f.imageUrl = false) ∧ validate exNoImg = none) ∧
    ((∀ f ∈ exAllImg, truthy f.imageUrl = true) ∧
      validate exAllImg = some GateError.noImages) := by
  decide

/-- C2 (code bug): the spec's report-coverage gate must raise exactly when no
feature carries a report count, but the code's predicate is inverted: a
ten-feature collection with no report counts at all passes the whole
validator, while a collection in which every feature carries a report count
is rejected with the "No reports found" failure. -/
theorem validatorReportGateInverted :
    ((∀ f ∈ exNoRep, truthyNum f.numReports = false) ∧ validate exNoRep = none) ∧
    ((∀ f ∈ exAllRep, truthyNum f.numReports = true) ∧
      validate exAllRep = some GateError.noReports) := by
  decide

/-- C3 (code bug): a collection meeting all three spec thresholds (at least
one image URL, at least one report count, at least ten features — here every
feature has all of them) must pass the validator, but the code rejects it
with the "No images found" failure, while `exNoImg` (zero images) is
accepted. -/
theorem validatorVerdictInverted :
    (10 ≤ exMeets.length ∧ (∃ f ∈ exMeets, truthy f.imageUrl = true) ∧
      (∃ f ∈ exMeets, truthyNum f.numReports = true)) ∧
    validate exMeets = some GateError.noImages ∧
    ((∀ f ∈ exNoImg, truthy f.imageUrl = false) ∧ validate exNoImg = none) := by
  decide

/-- C4: a run calls `put` at most once; whenever the run aborts — table fetch
failure, detail fetch failure, or a gate raising — no `put` happens and the
previously persisted collection is untouched; a `put` only happens for a
collection that passed all gates, on a run that completes. -/
theorem scheduledPutAtomicity (env : ScrapeEnv) (now : String) :
    (scheduled env now).puts.length ≤ 1 ∧
    ((scheduled env now).outcome ≠ Except.ok () → (scheduled env now).puts = []) ∧
    (∀ c ∈ (scheduled env now).puts,
      validate c.features = none ∧ (scheduled env now).outcome = Except.ok ()) ∧
    (∀ prior : Option FeatureCollection,
      (scheduled env now).outcome ≠ Except.ok () →
      finalStore prior (scheduled env now) = prior) := by
  obtain ⟨tp, fd⟩ := env
  cases tp with
  | error e =>
    refine ⟨?_, ?_, ?_, ?_⟩ <;> simp [scheduled, finalStore]
  | ok rows =>
    simp only [scheduled]
    cases ht : (runRows fd rows 0).2 with
    | error u =>
      refine ⟨?_, ?_, ?_, ?_⟩ <;> simp [finalStore]
    | ok features =>
      cases hv : validate features with
      | some g =>
        refine ⟨?_, ?_, ?_, ?_⟩ <;> simp [finalStore, hv]
      | none =>
        simp only [hv]
        refine ⟨?_, ?_, ?_, ?_⟩
        · simp
        · intro h
          exact absurd rfl h
        · intro c hc
          simp at hc
          subst hc
          exact ⟨hv, trivial⟩
        · intro prior h
          exact absurd rfl h

/-- Witness for C4: in a run whose validator raises (no rows were found), no
`put` event is recorded. -/
theorem scheduledPutAtomicityWitness :
    (scheduled exEnvFail "2024-01-01T00:00:00Z").puts = [] :=
  (scheduledPutAtomicity exEnvFail "2024-01-01T00:00:00Z").2.1
    (by
      intro h
      rw [show (scheduled exEnvFail "2024-01-01T00:00:00Z").outcome
          = Except.error (RunError.gateFailed GateError.noImages) from rfl] at h
      exact Except.noConfusion h)

/-- C5: the enricher issues at most 500 detail fetches however long the
table is; on a completed pass the fetched URLs are exactly those of the
first 500 kept records; every kept record appears in the final feature list
in row order (stripping enrichment recovers the parsed records one for one);
and records beyond the cap carry neither `imageUrl` nor `numReports`. -/
theorem enrichmentCapAndPassThrough (fd : DetailFetch) (rows : List Row) :
    (runRows fd rows 0).1.length ≤ 500 ∧
    (∀ (log : List String) (fs : List Feature),
      runRows fd rows 0 = (log, Except.ok fs) →
      log = ((rows.filterMap parseRow).map Feature.url).take 500 ∧
      fs.map stripEnrichment = rows.filterMap parseRow ∧
      ∀ f ∈ fs.drop 500, f.imageUrl = none ∧ f.numReports = none) := by
  obtain ⟨h1, h2⟩ := runRowsSpec fd rows 0
  refine ⟨by simpa using h1, ?_⟩
  intro log fs hrun
  obtain ⟨hl, hm, hd, _⟩ := h2 log fs hrun
  exact ⟨by simpa using hl, hm, by simpa using hd⟩

/-- Witness for C5: a one-row table is fetched once and its record passes
through. -/
theorem enrichmentCapAndPassThroughWitness :
    [(mkFeature 12 "North" "44.1,-124.0").url]
        = (([exRow7].filterMap parseRow).map Feature.url).take 500 ∧
    [enrich (mkFeature 12 "North" "44.1,-124.0") ⟨none, [], ""⟩].map stripEnrichment
        = [exRow7].filterMap parseRow := by
  have h := (enrichmentCapAndPassThrough emptyFd [exRow7]).2
    [(mkFeature 12 "North" "44.1,-124.0").url]
    [enrich (mkFeature 12 "North" "44.1,-124.0") ⟨none, [], ""⟩] rfl
  exact ⟨h.1, h.2.1⟩

/-- C6: a table row yields a record exactly when its `td:nth-child(2)` text
parses as an integer and its `td:nth-child(3)` text does not contain the
"never captured on OSCC website" sentinel; a skipped row contributes nothing
to the loop — no record and no error. -/
theorem rowSkipRules (r : Row) :
    ((parseRow r).isSome ↔
      ((jsParseInt (tdText r 2)).isSome ∧
        strContains skipSentinel (tdText r 3) = false)) ∧
    (parseRow r = none →
      ∀ (fd : DetailFetch) (rest : List Row) (count : Nat),
        runRows fd (r :: rest) count = runRows fd rest count) := by
  constructor
  · unfold parseRow
    cases h : jsParseInt (tdText r 2) with
    | none => simp
    | some id =>
      by_cases hs : strContains skipSentinel (tdText r 3) = true
      · simp [hs]
      · simp [hs]
  · intro hp fd rest count
    rw [runRows_cons, hp]

/-- Witness for C6: the header row is skipped silently inside the loop. -/
theorem rowSkipRulesWitness :
    runRows emptyFd [hdrRow] 0 = runRows emptyFd [] 0 :=
  (rowSkipRules hdrRow).2 rfl emptyFd [] 0

/-- C7: every record's coordinates come from the designated boundary cell by
splitting on commas, reversing to (lon, lat), and parsing each piece as a
float independently; "44.1,-124.0" yields [-124.0, 44.1] (as exact
rationals), and malformed numeric text yields NaN coordinates while the
record is still emitted. -/
theorem coordinateReversal :
    (∀ r f, parseRow r = some f → f.coordinates = parseBoundary (tdText r 5)) ∧
    parseBoundary "44.1,-124.0" = [some (mkRat (-124) 1), some (mkRat 441 10)] ∧
    (parseRow ⟨["", "12", "North", "", "abc,def"]⟩ =
        some (mkFeature 12 "North" "abc,def") ∧
      (mkFeature 12 "North" "abc,def").coordinates = [none, none]) := by
  refine ⟨?_, rfl, rfl, rfl⟩
  intro r f hf
  unfold parseRow at hf
  cases h : jsParseInt (tdText r 2) with
  | none => rw [h] at hf; exact absurd hf (by simp)
  | some id =>
    rw [h] at hf
    by_cases hs : strContains skipSentinel (tdText r 3) = true
    · simp [hs] at hf
    · simp [hs] at hf
      subst hf
      rfl

/-- Witness for C7: the coordinate clause applied to the concrete data row. -/
theorem coordinateReversalWitness :
    (mkFeature 12 "North" "44.1,-124.0").coordinates =
      parseBoundary (tdText exRow7 5) :=
  coordinateReversal.1 exRow7 (mkFeature 12 "North" "44.1,-124.0") rfl

/-- C8: the image extraction prefers the primary `img.mile-image` source when
it yields a (truthy) value; otherwise it takes the source of the first
report image whose alt text is not marked decorative — decorative matches are
skipped in favour of the next non-decorative one — and when that too yields
nothing, no image URL is assigned. -/
theorem imageFallbackChain :
    (∀ p : DetailPage, truthy p.mileImageSrc = true → enrichImage p = p.mileImageSrc) ∧
    (∀ (p : DetailPage) (pre : List ReportImage) (i : ReportImage)
        (post : List ReportImage),
      truthy p.mileImageSrc = false →
      p.reportImages = pre ++ i :: post →
      (∀ j ∈ pre, altDecorative j = true) →
      altDecorative i = false →
      truthy i.src = true →
      enrichImage p = i.src) ∧
    (∀ p : DetailPage, truthy p.mileImageSrc = false →
      truthy (fallbackImageSrc p) = false → enrichImage p = none) := by
  refine ⟨?_, ?_, ?_⟩
  · intro p hp
    simp [enrichImage, hp]
  · intro p pre i post hm hrep hpre hi hsrc
    have hf : fallbackImageSrc p = i.src := by
      unfold fallbackImageSrc
      rw [hrep, List.filter_append]
      have hnil : pre.filter (fun j => !altDecorative j) = [] := by
        rw [List.filter_eq_nil_iff]
        intro j hj
        simp [hpre j hj]
      rw [hnil, List.nil_append, List.filter_cons, if_pos (by simp [hi])]
      simp
    simp [enrichImage, hm, hf, hsrc]
  · intro p hm hf
    simp [enrichImage, hm, hf]

/-- Witness for C8: on `exPage8` the decorative first report image is skipped
and the second one's source wins. -/
theorem imageFallbackChainWitness : enrichImage exPage8 = some "https://s2" :=
  imageFallbackChain.2.1 exPage8 [⟨some "https://s1", some "decorative banner"⟩]
    ⟨some "https://s2", some "surf"⟩ [] rfl rfl (by decide) (by decide) rfl

/-- C9: when the results-meta text contains the pattern
`Showing X of N reports`, the enrichment stores `N` parsed as an integer —
"Showing 3 of 47 reports" stores 47 — and when the pattern is absent (or the
capture fails the code's truthiness / `NaN` guards, which digit captures
never do) no report count is stored. -/
theorem reportCountExtraction :
    (∀ d1 d2 : List Char, d1 ≠ [] → d2 ≠ [] →
      (∀ c ∈ d1, isDigitCh c = true) → (∀ c ∈ d2, isDigitCh c = true) →
      reportCount (String.mk
        ("Showing ".toList ++ (d1 ++ (" of ".toList ++ (d2 ++ " reports".toList)))))
        = some ((digitsVal d2 : Nat) : Int)) ∧
    reportCount "Showing 3 of 47 reports" = some 47 ∧
    (∀ s : String, execShowing s = none → reportCount s = none) := by
  refine ⟨?_, rfl, ?_⟩
  · intro d1 d2 h1 h2 hd1 hd2
    unfold reportCount
    rw [execShowing_eq d1 d2 h1 h2 hd1 hd2]
    dsimp only
    have htr : jsStrTruthy (String.mk d2) = true := by
      unfold jsStrTruthy
      rw [show (String.mk d2).toList = d2 from rfl]
      cases d2 with
      | nil => exact absurd rfl h2
      | cons a l => rfl
    rw [if_pos htr, jsParseInt_digits d2 h2 hd2]
  · intro s hs
    unfold reportCount
    rw [hs]

/-- Witness for C9: the general clause instantiated at the spec's example,
"Showing 3 of 47 reports". -/
theorem reportCountExtractionWitness :
    reportCount "Showing 3 of 47 reports" = some ((digitsVal ['4', '7'] : Nat) : Int) :=
  reportCountExtraction.1 ['3'] ['4', '7'] (by decide) (by decide) (by decide)
    (by decide)

/-- C10: an empty-string `src` on the primary mile image is falsy, so the
enricher behaves exactly as if the attribute were absent and consults the
fallback chain; an empty-string fallback source is likewise never assigned;
consequently any image URL the enrichment assigns — and hence any `imageUrl`
present on a feature produced by the row loop — is a non-empty string. -/
theorem imageUrlNonempty :
    (∀ p : DetailPage, p.mileImageSrc = some "" →
      enrichImage p = enrichImage { p with mileImageSrc := none }) ∧
    (∀ p : DetailPage, truthy p.mileImageSrc = false →
      fallbackImageSrc p = some "" → enrichImage p = none) ∧
    (∀ (p : DetailPage) (s : String), enrichImage p = some s → s ≠ "") ∧
    (∀ (fd : DetailFetch) (rows : List Row) (log : List String)
        (fs : List Feature),
      runRows fd rows 0 = (log, Except.ok fs) →
      ∀ f ∈ fs, ∀ s : String, f.imageUrl = some s → s ≠ "") := by
  refine ⟨?_, ?_, ?_, ?_⟩
  · intro p hp
    unfold enrichImage
    rw [hp]
    rfl
  · intro p hm hf
    unfold enrichImage
    rw [if_neg (by simp [hm]), hf]
    rfl
  · intro p s hp
    exact enrichImage_ne_empty hp
  · intro fd rows log fs hrun f hf s hs
    obtain ⟨-, -, -, hprov⟩ := (runRowsSpec fd rows 0).2 log fs hrun
    rcases hprov f hf with hnone | ⟨p, hp⟩
    · rw [hnone] at hs
      exact absurd hs (by simp)
    · rw [hp] at hs
      exact enrichImage_ne_empty hs

/-- Witness for C10: a page whose primary image has an empty `src` falls back
exactly like a page without the attribute. -/
theorem imageUrlNonemptyWitness :
    enrichImage ⟨some "", [⟨some "https://f", none⟩], ""⟩ =
      enrichImage ⟨none, [⟨some "https://f", none⟩], ""⟩ :=
  imageUrlNonempty.1 ⟨some "", [⟨some "https://f", none⟩], ""⟩ rfl

end CoastWatch